import Mathlib

/-!
Shallow embedding of `src/filter_users.py` ("User Filtering Tool").

The script loads a JSON array of user records from `users.json`, filters it
by one field (name, age, or email) with a linear scan, and prints matches.
Records are dictionaries; `user["k"]` raises `KeyError` when the key is
absent, while `user.get("k", d)` returns the default `d`.  We model records
with optional fields, dictionary access failure with an explicit error
value, console output as a list of abstract output events, and the outcome
of opening/decoding `users.json` (an external effect) as a `FileState`.
Strings are modelled over their character lists; `str.lower`, `str.strip`,
`str.isdigit` and `int` are modelled on ASCII data, which covers every
string the script itself manipulates.
-/

namespace FilterUsers

/-- A user record: a JSON object whose fields may each be absent.  The
script reads `id`, `name`, `age` (integers and strings) and `email`. -/
structure User where
  id    : Option Int
  name  : Option String
  age   : Option Int
  email : Option String
  deriving DecidableEq, Repr

/-- A Python exception escaping the modelled code: `user["k"]` on a record
without key `k` raises `KeyError`. -/
inductive PyErr where
  | keyError
  deriving DecidableEq, Repr

/-- One console output event.  Each `print` in the script becomes one
event; `userLine` carries the values interpolated into the record line,
with the email shown as `user.get("email", "N/A")`. -/
inductive Out where
  | errFileNotFound
  | errInvalidJson
  | separator
  | userLine (id : Int) (name : String) (age : Int) (email : String)
  | noMatchName
  | noMatchAge
  | noMatchEmail
  deriving DecidableEq, Repr

/-- The state of `users.json` as seen by `open` + `json.load`: missing
file, syntactically invalid JSON, or a successfully parsed list. -/
inductive FileState where
  | missing
  | invalidJson
  | valid (users : List User)
  deriving DecidableEq, Repr

/-- ASCII model of lower-casing one character (`str.lower`). -/
def lowerChar (c : Char) : Char :=
  if 'A' ≤ c ∧ c ≤ 'Z' then Char.ofNat (c.toNat + 32) else c

/-- ASCII model of Python `str.lower`. -/
def pyLower (s : String) : String :=
  ⟨s.data.map lowerChar⟩

/-- Model of `load_users` (src/filter_users.py:59-73): returns the parsed
list on success; on `FileNotFoundError` or `json.JSONDecodeError` it prints
the corresponding error message and returns `[]`.  It is a total function:
both failure modes are caught, none escapes. -/
def load_users : FileState → List Out × List User
  | .missing     => ([.errFileNotFound], [])
  | .invalidJson => ([.errInvalidJson], [])
  | .valid users => ([], users)

/-- The list comprehension of `filter_users_by_name`
(src/filter_users.py:87-90): keeps users with
`user["name"].lower() == name.lower()`; evaluating `user["name"]` on a
record without a name raises `KeyError` (elements are examined left to
right, so the first such record raises). -/
def selectByName : List User → String → Except PyErr (List User)
  | [], _ => .ok []
  | u :: us, q =>
    match u.name with
    | none => .error .keyError
    | some n =>
      match selectByName us q with
      | .error e => .error e
      | .ok rest => .ok (if pyLower n = pyLower q then u :: rest else rest)

/-- The list comprehension of `filter_by_age` (src/filter_users.py:115):
keeps users with `user["age"] == age`; a record without an age raises
`KeyError`. -/
def selectByAge : List User → Int → Except PyErr (List User)
  | [], _ => .ok []
  | u :: us, a =>
    match u.age with
    | none => .error .keyError
    | some x =>
      match selectByAge us a with
      | .error e => .error e
      | .ok rest => .ok (if x = a then u :: rest else rest)

/-- The list comprehension of `filter_by_email`
(src/filter_users.py:140-142): keeps users with
`user.get("email", "").lower() == email.lower()`.  `get` never raises, so
this selection is total. -/
def selectByEmail (users : List User) (q : String) : List User :=
  users.filter fun u => pyLower (u.email.getD "") = pyLower q

/-- The per-record display block shared by the three filters
(src/filter_users.py:94-98): prints a separator line, then one line
interpolating `user['id']`, `user['name']`, `user['age']` and
`user.get('email', 'N/A')`, then a second separator.  Bracket access on a
missing key raises `KeyError` after the first separator has been printed. -/
def displayUser (u : User) : List Out × Option PyErr :=
  match u.id, u.name, u.age with
  | some i, some n, some a =>
      ([.separator, .userLine i n a (u.email.getD "N/A"), .separator], none)
  | _, _, _ => ([.separator], some .keyError)

/-- The `for user in filtered_users` display loop: output accumulates
until the first record whose display raises. -/
def displayAll : List User → List Out × Option PyErr
  | [] => ([], none)
  | u :: us =>
    match displayUser u with
    | (out, some e) => (out, some e)
    | (out, none) =>
      let r := displayAll us
      (out ++ r.1, r.2)

/-- Full behaviour of `filter_users_by_name` (src/filter_users.py:76-101):
load, return early when the loaded list is empty (`if not users: return`),
select by lower-cased name equality, then either display every match or
print the no-match message.  Result: the console output produced and the
exception escaping, if any. -/
def runFilterByName (fs : FileState) (q : String) : List Out × Option PyErr :=
  let lr := load_users fs
  if lr.2.isEmpty then (lr.1, none)
  else
    match selectByName lr.2 q with
    | .error e => (lr.1, some e)
    | .ok filtered =>
      if filtered.isEmpty then (lr.1 ++ [.noMatchName], none)
      else
        let d := displayAll filtered
        (lr.1 ++ d.1, d.2)

/-- Full behaviour of `filter_by_age` (src/filter_users.py:104-126). -/
def runFilterByAge (fs : FileState) (a : Int) : List Out × Option PyErr :=
  let lr := load_users fs
  if lr.2.isEmpty then (lr.1, none)
  else
    match selectByAge lr.2 a with
    | .error e => (lr.1, some e)
    | .ok filtered =>
      if filtered.isEmpty then (lr.1 ++ [.noMatchAge], none)
      else
        let d := displayAll filtered
        (lr.1 ++ d.1, d.2)

/-- Full behaviour of `filter_by_email` (src/filter_users.py:129-153). -/
def runFilterByEmail (fs : FileState) (q : String) : List Out × Option PyErr :=
  let lr := load_users fs
  if lr.2.isEmpty then (lr.1, none)
  else
    let filtered := selectByEmail lr.2 q
    if filtered.isEmpty then (lr.1 ++ [.noMatchEmail], none)
    else
      let d := displayAll filtered
      (lr.1 ++ d.1, d.2)

/-- ASCII model of `\w` of Python `re`: letters, digits, underscore. -/
def isWordChar (c : Char) : Bool :=
  c.isAlphanum || c = '_'

/-- Character class `[\w\.-]` of the email regex: word characters, dots
and hyphens. -/
def isLocalChar (c : Char) : Bool :=
  isWordChar c || c = '.' || c = '-'

/-- Splits a character list at the first occurrence of `c`: `some (l, r)`
with the input equal to `l ++ c :: r` and `c` not in `l`, or `none` when
`c` does not occur. -/
def breakAtChar (c : Char) : List Char → Option (List Char × List Char)
  | [] => none
  | x :: xs =>
    if x = c then some ([], xs)
    else
      match breakAtChar c xs with
      | none => none
      | some (l, r) => some (x :: l, r)

/-- Checks of the part after the `@` of the regex of `is_valid_email`:
`lp` must be a non-empty `[\w\.-]+` local part, and `rest` must match
`[\w\.-]+\.\w+`.  The class `\w+` excludes dots, so the regex's `\.` can
only match the last dot of `rest`; the checker splits `rest` there. -/
def emailChecks (lp rest : List Char) : Bool :=
  match rest.reverse.dropWhile (fun c => c ≠ '.') with
  | [] => false
  | _ :: drev =>
    decide (lp ≠ []) && lp.all isLocalChar &&
    decide ((rest.reverse.takeWhile fun c => c ≠ '.') ≠ []) &&
    (rest.reverse.takeWhile fun c => c ≠ '.').all isWordChar &&
    decide (drev ≠ []) && drev.all isLocalChar

/-- Strict match of the regex body `[\w\.-]+@[\w\.-]+\.\w+` against a
whole character list.  The classes `[\w\.-]` and `\w` exclude `@`, so the
regex's `@` can only match the first `@` of the list; the matcher splits
there and hands the two sides to `emailChecks`. -/
def emailCore (cs : List Char) : Bool :=
  match breakAtChar '@' cs with
  | none => false
  | some (lp, rest) => emailChecks lp rest

/-- Model of `is_valid_email` (src/filter_users.py:155-166):
`re.match(r"^[\w\.-]+@[\w\.-]+\.\w+$", email)`.  In Python's `re`, the
anchor `$` matches at the end of the string or just before a newline at
the end of the string, so the pattern body must consume either the whole
string or everything up to one final newline character. -/
def is_valid_email (email : String) : Bool :=
  emailCore email.data ||
  (decide (email.data.getLast? = some '\n') && emailCore email.data.dropLast)

/-- The shape the spec describes for accepted e-mail addresses, stated
from its words over a character list: `local-part@domain.tld`, the local
part and the domain body built from word characters, dots, and hyphens,
the domain ending in a dot followed by word characters. -/
def EmailShapeL (cs : List Char) : Prop :=
  ∃ L D T : List Char,
    cs = L ++ '@' :: (D ++ '.' :: T) ∧
    L ≠ [] ∧ (∀ c ∈ L, isLocalChar c) ∧
    D ≠ [] ∧ (∀ c ∈ D, isLocalChar c) ∧
    T ≠ [] ∧ (∀ c ∈ T, isWordChar c)

/-- The spec's e-mail shape on strings. -/
def EmailShape (s : String) : Prop :=
  EmailShapeL s.data

/-- The spec's e-mail shape, optionally followed by one trailing newline
— the extra strings Python's `$` lets the source accept. -/
def EmailShapeNl (s : String) : Prop :=
  EmailShape s ∨
    (s.data.getLast? = some '\n' ∧ EmailShape ⟨s.data.dropLast⟩)

/-- ASCII decimal digit, the characters `str.isdigit` accepts on ASCII
input. -/
def isDigitChar (c : Char) : Bool :=
  '0' ≤ c && c ≤ '9'

/-- ASCII model of Python `str.isdigit`: non-empty and all digits. -/
def pyIsDigit (s : String) : Bool :=
  decide (s.data ≠ []) && s.data.all isDigitChar

/-- ASCII whitespace stripped by Python `str.strip`. -/
def isPySpace (c : Char) : Bool :=
  c = ' ' || c = '\t' || c = '\n' || c = '\r' || c = '\x0b' || c = '\x0c'

/-- ASCII model of Python `str.strip`. -/
def pyStrip (s : String) : String :=
  ⟨(((s.data.dropWhile isPySpace).reverse).dropWhile isPySpace).reverse⟩

/-- Model of Python `int` on the digit-only strings the age loop feeds
it. -/
def pyInt (s : String) : Int :=
  s.data.foldl (fun a c => a * 10 + ((c.toNat : Int) - 48)) 0

/-- The age branch of the interactive driver
(src/filter_users.py:197-217): reads inputs in turn, strips each, retries
on empty input, on input that fails `isdigit`, and on a parsed value below
zero; the first surviving value is the one passed to `filter_by_age`.
`none` means the input sequence ran out with nothing passed. -/
def ageLoop : List String → Option Int
  | [] => none
  | s :: rest =>
    if pyStrip s = "" then ageLoop rest
    else if ¬ pyIsDigit (pyStrip s) then ageLoop rest
    else if pyInt (pyStrip s) < 0 then ageLoop rest
    else some (pyInt (pyStrip s))

/-- Modelled from the spec: the identifier filter is absent from
`src/filter_users.py` (its `valid_options` are only name, age, email); the
spec describes it as exact integer equality returning only the first match
in file order, with `next(...)` semantics. -/
def filter_by_id (users : List User) (i : Int) : Option User :=
  users.find? fun u => u.id = some i

/-- The record of the module docstring's own example `users.json`
(src/filter_users.py:34-38): name, age and email, no id. -/
def aliceDoc : User :=
  { id := none, name := some "Alice", age := some 25,
    email := some "alice@example.com" }

/-- A record with an id, used as a concrete witness input. -/
def aliceU : User :=
  { id := some 1, name := some "Alice", age := some 25,
    email := some "alice@example.com" }

/-- Bob from the spec's example: no email field (and an id so display
succeeds). -/
def bobU : User :=
  { id := some 2, name := some "Bob", age := some 30, email := none }

/-! Helper lemmas. -/

lemma pyLower_eq_empty_iff (s : String) : pyLower s = "" ↔ s = "" := by
  constructor
  · intro h
    obtain ⟨d⟩ := s
    have hd : d.map lowerChar = [] := congrArg String.data h
    have hni : d = [] := List.map_eq_nil_iff.mp hd
    subst hni
    rfl
  · intro h
    rw [h]
    rfl

lemma selectByName_eq_filter (users : List User) (q : String)
    (h : ∀ u ∈ users, u.name.isSome) :
    selectByName users q =
      .ok (users.filter fun u => pyLower (u.name.getD "") = pyLower q) := by
  induction users with
  | nil => rfl
  | cons u us ih =>
    obtain ⟨n, hn⟩ := Option.isSome_iff_exists.mp (h u (List.mem_cons_self u us))
    have ih' := ih fun v hv => h v (List.mem_cons_of_mem _ hv)
    by_cases hc : pyLower n = pyLower q
    · simp [selectByName, hn, ih', List.filter_cons, hc]
    · simp [selectByName, hn, ih', List.filter_cons, hc]

lemma selectByAge_eq_filter (users : List User) (a : Int)
    (h : ∀ u ∈ users, u.age.isSome) :
    selectByAge users a =
      .ok (users.filter fun u => u.age = some a) := by
  induction users with
  | nil => rfl
  | cons u us ih =>
    obtain ⟨x, hx⟩ := Option.isSome_iff_exists.mp (h u (List.mem_cons_self u us))
    have ih' := ih fun v hv => h v (List.mem_cons_of_mem _ hv)
    have hsel : selectByAge (u :: us) a =
        match u.age with
        | none => .error .keyError
        | some x =>
          match selectByAge us a with
          | .error e => .error e
          | .ok rest => .ok (if x = a then u :: rest else rest) := rfl
    rw [hsel, hx, ih']
    by_cases hc : x = a
    · simp [List.filter_cons, hx, hc]
    · simp [List.filter_cons, hx, hc]

lemma find?_eq_head?_filter {α : Type} (p : α → Bool) (l : List α) :
    l.find? p = (l.filter p).head? := by
  induction l with
  | nil => rfl
  | cons x xs ih =>
    by_cases h : p x = true
    · rw [List.find?_cons_of_pos _ h, List.filter_cons_of_pos h]
      rfl
    · rw [List.find?_cons_of_neg _ h, List.filter_cons_of_neg h, ih]

/-! Claim theorems. -/

/-- C1: on any record list whose elements all carry a name (the invariant
of the data model), `filter_users_by_name` selects exactly the records
whose lower-cased name equals the lower-cased query — all of them, in the
original order, as `List.filter` of the case-insensitive predicate. -/
theorem name_filter_is_case_insensitive_filter (users : List User) (q : String)
    (h : ∀ u ∈ users, u.name.isSome) :
    selectByName users q =
      .ok (users.filter fun u => pyLower (u.name.getD "") = pyLower q) :=
  selectByName_eq_filter users q h

/-- C1 witness: the query `"ALICE"` selects the stored record named
`"Alice"`. -/
theorem name_filter_is_case_insensitive_filter_witness :
    selectByName [aliceU] "ALICE" = .ok [aliceU] := by
  have h := name_filter_is_case_insensitive_filter [aliceU] "ALICE" (by decide)
  rw [h]
  rfl

/-- C2: filtering a loaded dataset by one of its own record's field values
(name, age, or email) yields a non-empty result containing that record,
given the data-model invariant that name and age are present on every
record. -/
theorem filter_by_own_field_contains_record (users : List User) (r : User)
    (hr : r ∈ users)
    (hinv : ∀ u ∈ users, u.name.isSome ∧ u.age.isSome) :
    (∀ n, r.name = some n →
      ∃ res, selectByName users n = .ok res ∧ r ∈ res ∧ res ≠ []) ∧
    (∀ a, r.age = some a →
      ∃ res, selectByAge users a = .ok res ∧ r ∈ res ∧ res ≠ []) ∧
    (∀ e, r.email = some e →
      r ∈ selectByEmail users e ∧ selectByEmail users e ≠ []) := by
  refine ⟨?_, ?_, ?_⟩
  · intro n hn
    have hmem : r ∈ users.filter fun u => pyLower (u.name.getD "") = pyLower n :=
      List.mem_filter.mpr ⟨hr, by simp [hn]⟩
    refine ⟨_, selectByName_eq_filter users n (fun u hu => (hinv u hu).1), hmem, ?_⟩
    intro hnil
    rw [hnil] at hmem
    exact List.not_mem_nil r hmem
  · intro a ha
    have hmem : r ∈ users.filter fun u => u.age = some a :=
      List.mem_filter.mpr ⟨hr, by simp [ha]⟩
    refine ⟨_, selectByAge_eq_filter users a (fun u hu => (hinv u hu).2), hmem, ?_⟩
    intro hnil
    rw [hnil] at hmem
    exact List.not_mem_nil r hmem
  · intro e he
    have hm : r ∈ selectByEmail users e :=
      List.mem_filter.mpr ⟨hr, by simp [selectByEmail, he]⟩
    exact ⟨hm, fun hnil => List.not_mem_nil r (hnil ▸ hm)⟩

/-- C2 witness: instantiated on the two-record dataset of the spec's
example, with `r` the Alice record. -/
theorem filter_by_own_field_contains_record_witness :
    (∀ n, aliceU.name = some n →
      ∃ res, selectByName [aliceU, bobU] n = .ok res ∧ aliceU ∈ res ∧ res ≠ []) ∧
    (∀ a, aliceU.age = some a →
      ∃ res, selectByAge [aliceU, bobU] a = .ok res ∧ aliceU ∈ res ∧ res ≠ []) ∧
    (∀ e, aliceU.email = some e →
      aliceU ∈ selectByEmail [aliceU, bobU] e ∧ selectByEmail [aliceU, bobU] e ≠ []) :=
  filter_by_own_field_contains_record [aliceU, bobU] aliceU (by decide) (by decide)

/-- C5: `load_users` returns the parsed list on success; on a missing file
it prints the file-not-found error and returns `[]`; on invalid JSON it
prints a distinct invalid-JSON error and returns `[]`.  Being a total Lean
function, it raises nothing in either failure case. -/
theorem load_users_error_handling (us : List User) :
    load_users (FileState.valid us) = ([], us) ∧
    load_users FileState.missing = ([Out.errFileNotFound], []) ∧
    load_users FileState.invalidJson = ([Out.errInvalidJson], []) ∧
    Out.errFileNotFound ≠ Out.errInvalidJson :=
  ⟨rfl, rfl, rfl, by decide⟩

/-- C10: the identifier filter matches by exact integer equality and
returns only the first match in file order: it equals the head of the list
of all matches, so duplicates beyond the first are dropped. -/
theorem id_filter_first_match_only (users : List User) (i : Int) :
    filter_by_id users i = (users.filter fun u => u.id = some i).head? ∧
    (∀ u, filter_by_id users i = some u → u.id = some i ∧ u ∈ users) := by
  constructor
  · exact find?_eq_head?_filter _ users
  · intro u hu
    exact ⟨by simpa using List.find?_some hu, List.mem_of_find?_eq_some hu⟩

lemma ageLoop_nonneg : ∀ (inputs : List String) (a : Int),
    ageLoop inputs = some a → 0 ≤ a := by
  intro inputs
  induction inputs with
  | nil =>
    intro a h
    simp [ageLoop] at h
  | cons s more ih =>
    intro a h
    simp only [ageLoop] at h
    by_cases h1 : pyStrip s = ""
    · rw [if_pos h1] at h
      exact ih a h
    · rw [if_neg h1] at h
      by_cases h2 : ¬ pyIsDigit (pyStrip s) = true
      · rw [if_pos h2] at h
        exact ih a h
      · rw [if_neg h2] at h
        by_cases h3 : pyInt (pyStrip s) < 0
        · rw [if_pos h3] at h
          exact ih a h
        · rw [if_neg h3] at h
          have ha : pyInt (pyStrip s) = a := Option.some.inj h
          omega

/-- C3: the code raises where the spec claims tolerance.  On the module
docstring's own example record (name, age, email, no id), filtering by its
name prints the opening separator and then raises `KeyError` from
`user['id']`; a record missing only the email is displayed fine with the
`"N/A"` default. -/
theorem display_missing_id_raises_keyerror :
    runFilterByName (FileState.valid [aliceDoc]) "Alice" =
      ([Out.separator], some PyErr.keyError) ∧
    runFilterByName (FileState.valid [bobU]) "Bob" =
      ([Out.separator, Out.userLine 2 "Bob" 30 "N/A", Out.separator], none) :=
  ⟨rfl, rfl⟩

/-- C4 counterexample: a record with no email field does match one query,
the empty string, because `user.get("email", "")` supplies the empty
default which equals the lower-cased empty query. -/
theorem email_empty_query_matches_missing_email :
    bobU.email = none ∧ bobU ∈ selectByEmail [bobU] "" ∧
      selectByEmail [bobU] "" ≠ [] := by
  refine ⟨rfl, ?_, ?_⟩ <;> decide

/-- C4 amended: `filter_by_email` matches by lower-cased equality against
`user.get("email", "")`, and a record with no email field never matches a
non-empty query (it does match the empty one). -/
theorem email_filter_nonempty_query_no_match (users : List User) (q : String)
    (hq : q ≠ "") :
    (∀ u ∈ users,
      (u ∈ selectByEmail users q ↔ pyLower (u.email.getD "") = pyLower q)) ∧
    (∀ u ∈ users, u.email = none → u ∉ selectByEmail users q) := by
  constructor
  · intro u hu
    simp [selectByEmail, List.mem_filter, hu]
  · intro u hu hnone hm
    have hp : pyLower (u.email.getD "") = pyLower q := by
      simpa [selectByEmail] using (List.mem_filter.mp hm).2
    rw [hnone] at hp
    have h0 : pyLower q = "" := by
      rw [← hp]
      rfl
    exact hq ((pyLower_eq_empty_iff q).mp h0)

/-- C4 witness: the spec's example, the query `"BOB@x.com"` against a
dataset where Bob has no email field. -/
theorem email_filter_nonempty_query_no_match_witness :
    (∀ u ∈ [aliceU, bobU],
      (u ∈ selectByEmail [aliceU, bobU] "BOB@x.com" ↔
        pyLower (u.email.getD "") = pyLower "BOB@x.com")) ∧
    (∀ u ∈ [aliceU, bobU], u.email = none →
      u ∉ selectByEmail [aliceU, bobU] "BOB@x.com") :=
  email_filter_nonempty_query_no_match [aliceU, bobU] "BOB@x.com" (by decide)

/-- C6 counterexample: on a missing file the name filter prints only the
load error and returns early; the "no matches" message is not produced. -/
theorem load_failure_no_match_message_absent :
    runFilterByName FileState.missing "Alice" = ([Out.errFileNotFound], none) ∧
    Out.noMatchName ∉ (runFilterByName FileState.missing "Alice").1 := by
  refine ⟨rfl, ?_⟩
  decide

/-- C6 amended: when loading fails, each filter prints the load error,
degrades to the empty record list and returns early with no exception —
but without printing the "no matches" message. -/
theorem load_failure_early_return (fs : FileState) (q e : String) (a : Int)
    (h : fs = FileState.missing ∨ fs = FileState.invalidJson) :
    runFilterByName fs q = ((load_users fs).1, none) ∧
    runFilterByAge fs a = ((load_users fs).1, none) ∧
    runFilterByEmail fs e = ((load_users fs).1, none) ∧
    (load_users fs).2 = [] ∧
    (load_users fs).1 ≠ [] ∧
    Out.noMatchName ∉ (runFilterByName fs q).1 ∧
    Out.noMatchAge ∉ (runFilterByAge fs a).1 ∧
    Out.noMatchEmail ∉ (runFilterByEmail fs e).1 := by
  rcases h with rfl | rfl
  · refine ⟨rfl, rfl, rfl, rfl, by decide, ?_, ?_, ?_⟩
    · show Out.noMatchName ∉ [Out.errFileNotFound]
      decide
    · show Out.noMatchAge ∉ [Out.errFileNotFound]
      decide
    · show Out.noMatchEmail ∉ [Out.errFileNotFound]
      decide
  · refine ⟨rfl, rfl, rfl, rfl, by decide, ?_, ?_, ?_⟩
    · show Out.noMatchName ∉ [Out.errInvalidJson]
      decide
    · show Out.noMatchAge ∉ [Out.errInvalidJson]
      decide
    · show Out.noMatchEmail ∉ [Out.errInvalidJson]
      decide

/-- C6 witness: instantiated at the missing-file state. -/
theorem load_failure_early_return_witness :
    runFilterByName FileState.missing "x" =
      ((load_users FileState.missing).1, none) ∧
    runFilterByAge FileState.missing 3 =
      ((load_users FileState.missing).1, none) ∧
    runFilterByEmail FileState.missing "y" =
      ((load_users FileState.missing).1, none) ∧
    (load_users FileState.missing).2 = [] ∧
    (load_users FileState.missing).1 ≠ [] ∧
    Out.noMatchName ∉ (runFilterByName FileState.missing "x").1 ∧
    Out.noMatchAge ∉ (runFilterByAge FileState.missing 3).1 ∧
    Out.noMatchEmail ∉ (runFilterByEmail FileState.missing "y").1 :=
  load_failure_early_return FileState.missing "x" "y" 3 (Or.inl rfl)

/-- C7: on a non-empty dataset satisfying the record invariant, a query
matching no record makes each filter produce exactly the "no matches"
message of its kind and raise no exception. -/
theorem no_match_message_no_exception (users : List User) (q e : String) (a : Int)
    (hne : users ≠ [])
    (hinv : ∀ u ∈ users, u.name.isSome ∧ u.age.isSome)
    (hq : ∀ u ∈ users, pyLower (u.name.getD "") ≠ pyLower q)
    (ha : ∀ u ∈ users, u.age ≠ some a)
    (he : ∀ u ∈ users, pyLower (u.email.getD "") ≠ pyLower e) :
    runFilterByName (FileState.valid users) q = ([Out.noMatchName], none) ∧
    runFilterByAge (FileState.valid users) a = ([Out.noMatchAge], none) ∧
    runFilterByEmail (FileState.valid users) e = ([Out.noMatchEmail], none) := by
  have hue : users.isEmpty = false := by
    cases users with
    | nil => exact absurd rfl hne
    | cons u us => rfl
  have hfn : users.filter (fun u => pyLower (u.name.getD "") = pyLower q) = [] :=
    List.filter_eq_nil_iff.mpr fun u hu => by simpa using hq u hu
  have hfa : users.filter (fun u => u.age = some a) = [] :=
    List.filter_eq_nil_iff.mpr fun u hu => by simpa using ha u hu
  have hfe : selectByEmail users e = [] :=
    List.filter_eq_nil_iff.mpr fun u hu => by simpa using he u hu
  have hsn := selectByName_eq_filter users q fun u hu => (hinv u hu).1
  have hsa := selectByAge_eq_filter users a fun u hu => (hinv u hu).2
  refine ⟨?_, ?_, ?_⟩
  · simp [runFilterByName, load_users, hue, hsn, hfn]
  · simp [runFilterByAge, load_users, hue, hsa, hfa]
  · simp [runFilterByEmail, load_users, hue, hfe]

/-- C7 witness: the two-record example dataset with the spec's
no-match queries, among them age `99`. -/
theorem no_match_message_no_exception_witness :
    runFilterByName (FileState.valid [aliceU, bobU]) "Zed" =
      ([Out.noMatchName], none) ∧
    runFilterByAge (FileState.valid [aliceU, bobU]) 99 =
      ([Out.noMatchAge], none) ∧
    runFilterByEmail (FileState.valid [aliceU, bobU]) "zed@x.com" =
      ([Out.noMatchEmail], none) :=
  no_match_message_no_exception [aliceU, bobU] "Zed" "zed@x.com" 99
    (by decide) (by decide) (by decide) (by decide) (by decide)

/-- C8: the age branch of the interactive driver never hands
`filter_by_age` a negative value, and rejects (re-prompting on) the empty
input, the non-numeric input `"abc"`, and the negative input `"-5"`. -/
theorem age_loop_validates (inputs : List String) (rest : List String) (a : Int)
    (h : ageLoop inputs = some a) :
    0 ≤ a ∧
    ageLoop ("" :: rest) = ageLoop rest ∧
    ageLoop ("abc" :: rest) = ageLoop rest ∧
    ageLoop ("-5" :: rest) = ageLoop rest :=
  ⟨ageLoop_nonneg inputs a h, rfl, rfl, rfl⟩

/-- C8 witness: after rejecting the empty string, `"abc"` and `"-5"`, the
loop passes `25` on. -/
theorem age_loop_validates_witness :
    (0 : Int) ≤ 25 ∧
    ageLoop ("" :: ["25"]) = ageLoop ["25"] ∧
    ageLoop ("abc" :: ["25"]) = ageLoop ["25"] ∧
    ageLoop ("-5" :: ["25"]) = ageLoop ["25"] :=
  age_loop_validates ["", "abc", "-5", "25"] ["25"] 25 (by decide)

lemma breakAtChar_eq_some (c : Char) :
    ∀ (l a b : List Char), breakAtChar c l = some (a, b) → l = a ++ c :: b := by
  intro l
  induction l with
  | nil =>
    intro a b h
    simp [breakAtChar] at h
  | cons x xs ih =>
    intro a b h
    by_cases hx : x = c
    · subst hx
      simp [breakAtChar] at h
      obtain ⟨rfl, rfl⟩ := h
      rfl
    · simp only [breakAtChar, if_neg hx] at h
      cases hbk : breakAtChar c xs with
      | none =>
        rw [hbk] at h
        simp at h
      | some p =>
        obtain ⟨l1, r1⟩ := p
        rw [hbk] at h
        simp at h
        obtain ⟨rfl, rfl⟩ := h
        simp [ih l1 r1 hbk]

lemma breakAtChar_not_mem (c : Char) :
    ∀ (l a b : List Char), breakAtChar c l = some (a, b) → c ∉ a := by
  intro l
  induction l with
  | nil =>
    intro a b h
    simp [breakAtChar] at h
  | cons x xs ih =>
    intro a b h
    by_cases hx : x = c
    · subst hx
      simp [breakAtChar] at h
      obtain ⟨rfl, rfl⟩ := h
      simp
    · simp only [breakAtChar, if_neg hx] at h
      cases hbk : breakAtChar c xs with
      | none =>
        rw [hbk] at h
        simp at h
      | some p =>
        obtain ⟨l1, r1⟩ := p
        rw [hbk] at h
        simp at h
        obtain ⟨rfl, rfl⟩ := h
        intro hc
        rcases List.mem_cons.mp hc with hc1 | hc2
        · exact hx hc1.symm
        · exact ih l1 r1 hbk hc2

lemma breakAtChar_append (c : Char) (a b : List Char) (ha : c ∉ a) :
    breakAtChar c (a ++ c :: b) = some (a, b) := by
  induction a with
  | nil => simp [breakAtChar]
  | cons x xs ih =>
    have hx : ¬ x = c := by
      intro h
      apply ha
      rw [← h]
      exact List.mem_cons_self x xs
    have ih' := ih fun h => ha (List.mem_cons_of_mem _ h)
    simp only [List.cons_append, breakAtChar, if_neg hx, List.append_eq, ih']

lemma takeWhile_dropWhile_append (p : Char → Bool) (a : List Char) (y : Char)
    (b : List Char) (ha : ∀ x ∈ a, p x = true) (hy : p y = false) :
    (a ++ y :: b).takeWhile p = a ∧ (a ++ y :: b).dropWhile p = y :: b := by
  induction a with
  | nil => simp [List.takeWhile_cons, List.dropWhile_cons, hy]
  | cons x xs ih =>
    have hx := ha x (List.mem_cons_self x xs)
    have ih' := ih fun z hz => ha z (List.mem_cons_of_mem _ hz)
    simp [List.takeWhile_cons, List.dropWhile_cons, hx, ih'.1, ih'.2]

lemma dropWhile_head_not (p : Char → Bool) :
    ∀ (l : List Char) (x : Char) (xs : List Char),
      l.dropWhile p = x :: xs → p x = false := by
  intro l
  induction l with
  | nil =>
    intro x xs h
    simp [List.dropWhile] at h
  | cons y ys ih =>
    intro x xs h
    by_cases hy : p y = true
    · rw [List.dropWhile_cons_of_pos hy] at h
      exact ih x xs h
    · rw [List.dropWhile_cons_of_neg hy] at h
      cases h
      exact Bool.eq_false_iff.mpr hy

lemma isLocalChar_ne_at {c : Char} (h : isLocalChar c = true) : c ≠ '@' := by
  rintro rfl
  exact absurd h (by decide)

lemma isWordChar_ne_dot {c : Char} (h : isWordChar c = true) : c ≠ '.' := by
  rintro rfl
  exact absurd h (by decide)

lemma emailChecks_iff (lp rest : List Char) :
    emailChecks lp rest = true ↔
      ∃ D T : List Char, rest = D ++ '.' :: T ∧
        lp ≠ [] ∧ (∀ c ∈ lp, isLocalChar c) ∧
        D ≠ [] ∧ (∀ c ∈ D, isLocalChar c) ∧
        T ≠ [] ∧ (∀ c ∈ T, isWordChar c) := by
  unfold emailChecks
  split
  · rename_i heq
    constructor
    · intro h
      exact absurd h (by simp)
    · rintro ⟨D, T, rfl, -, -, -, -, hT, hTa⟩
      have hTrev : ∀ x ∈ T.reverse, (fun c : Char => decide (c ≠ '.')) x = true := by
        intro x hx
        simpa using isWordChar_ne_dot (hTa x (List.mem_reverse.mp hx))
      have hdw := (takeWhile_dropWhile_append (fun c : Char => decide (c ≠ '.'))
        T.reverse '.' D.reverse hTrev (by simp)).2
      have hrev : (D ++ '.' :: T).reverse = T.reverse ++ '.' :: D.reverse := by
        simp [List.reverse_append]
      rw [hrev, hdw] at heq
      exact absurd heq (by simp)
  · rename_i dot drev heq
    constructor
    · intro h
      simp only [Bool.and_eq_true, decide_eq_true_eq, List.all_eq_true] at h
      obtain ⟨⟨⟨⟨⟨hlp, hlpa⟩, htld⟩, htlda⟩, hdrev⟩, hdreva⟩ := h
      have hdot : dot = '.' := by
        simpa using dropWhile_head_not (fun c : Char => decide (c ≠ '.'))
          rest.reverse dot drev heq
      subst hdot
      have hsp := List.takeWhile_append_dropWhile
        (fun c : Char => decide (c ≠ '.')) rest.reverse
      rw [heq] at hsp
      have hback : drev.reverse ++ '.' ::
          (rest.reverse.takeWhile fun c => c ≠ '.').reverse = rest := by
        have h2 := congrArg List.reverse hsp
        simpa [List.reverse_append] using h2
      refine ⟨drev.reverse,
        (rest.reverse.takeWhile fun c => c ≠ '.').reverse,
        hback.symm, hlp, hlpa, ?_, ?_, ?_, ?_⟩
      · simpa using hdrev
      · intro c hc
        exact hdreva c (List.mem_reverse.mp hc)
      · simpa using htld
      · intro c hc
        exact htlda c (List.mem_reverse.mp hc)
    · rintro ⟨D, T, hrestEq, hlp, hlpa, hD, hDa, hT, hTa⟩
      subst hrestEq
      have hTrev : ∀ x ∈ T.reverse, (fun c : Char => decide (c ≠ '.')) x = true := by
        intro x hx
        simpa using isWordChar_ne_dot (hTa x (List.mem_reverse.mp hx))
      obtain ⟨htw, hdw⟩ := takeWhile_dropWhile_append
        (fun c : Char => decide (c ≠ '.')) T.reverse '.' D.reverse hTrev (by simp)
      have hrev : (D ++ '.' :: T).reverse = T.reverse ++ '.' :: D.reverse := by
        simp [List.reverse_append]
      rw [hrev, hdw] at heq
      cases heq
      rw [hrev, htw]
      simp only [Bool.and_eq_true, decide_eq_true_eq, List.all_eq_true]
      refine ⟨⟨⟨⟨⟨hlp, hlpa⟩, ?_⟩, ?_⟩, ?_⟩, ?_⟩
      · simpa using hT
      · intro c hc
        exact hTa c (List.mem_reverse.mp hc)
      · simpa using hD
      · intro c hc
        exact hDa c (List.mem_reverse.mp hc)

lemma emailCore_iff (cs : List Char) : emailCore cs = true ↔ EmailShapeL cs := by
  unfold emailCore
  split
  · rename_i heq
    constructor
    · intro h
      exact absurd h (by simp)
    · rintro ⟨L, D, T, hs, hL, hLa, hD, hDa, hT, hTa⟩
      have hLat : '@' ∉ L := fun hc => isLocalChar_ne_at (hLa _ hc) rfl
      rw [hs, breakAtChar_append '@' L (D ++ '.' :: T) hLat] at heq
      exact absurd heq (by simp)
  · rename_i lp rest heq
    have hsd := breakAtChar_eq_some '@' cs lp rest heq
    rw [emailChecks_iff]
    constructor
    · rintro ⟨D, T, hrest, h1, h2, h3, h4, h5, h6⟩
      exact ⟨lp, D, T, by rw [hsd, hrest], h1, h2, h3, h4, h5, h6⟩
    · rintro ⟨L, D, T, hs2, hL, hLa, hD, hDa, hT, hTa⟩
      have hLat : '@' ∉ L := fun hc => isLocalChar_ne_at (hLa _ hc) rfl
      have e1 : breakAtChar '@' cs = some (L, D ++ '.' :: T) := by
        rw [hs2]
        exact breakAtChar_append '@' L _ hLat
      rw [heq] at e1
      injection e1 with e2
      injection e2 with e3 e4
      subst e3
      subst e4
      exact ⟨D, T, rfl, hL, hLa, hD, hDa, hT, hTa⟩

lemma is_valid_email_iff (s : String) :
    is_valid_email s = true ↔ EmailShapeNl s := by
  unfold is_valid_email EmailShapeNl
  rw [Bool.or_eq_true, Bool.and_eq_true, decide_eq_true_eq,
    emailCore_iff, emailCore_iff]
  exact Iff.rfl

lemma isLocalChar_of_isWordChar {c : Char} (h : isWordChar c = true) :
    isLocalChar c = true := by
  unfold isLocalChar
  rw [h]
  rfl

lemma EmailShape_chars (s : String) (h : EmailShape s) :
    ∀ c ∈ s.data, isLocalChar c = true ∨ c = '@' := by
  obtain ⟨L, D, T, hs, -, hLa, -, hDa, -, hTa⟩ := h
  intro c hc
  rw [hs] at hc
  rcases List.mem_append.mp hc with hL | hrest
  · exact Or.inl (hLa c hL)
  · rcases List.mem_cons.mp hrest with rfl | hrest2
    · exact Or.inr rfl
    · rcases List.mem_append.mp hrest2 with hD | hdot
      · exact Or.inl (hDa c hD)
      · rcases List.mem_cons.mp hdot with rfl | hT
        · exact Or.inl (by decide)
        · exact Or.inl (isLocalChar_of_isWordChar (hTa c hT))

/-- C9 counterexample: Python's `$` also matches just before a newline at
the end of the string, so the source regex accepts `"a@b.c\n"` — a string
that is not of the claimed exact shape, since its last character is
neither a word character, a dot, a hyphen, nor `@`. -/
theorem email_validator_trailing_newline :
    is_valid_email "a@b.c\n" = true ∧ ¬ EmailShape "a@b.c\n" := by
  refine ⟨by decide, ?_⟩
  intro h
  rcases EmailShape_chars _ h '\n' (by decide) with h1 | h1
  · exact absurd h1 (by decide)
  · exact absurd h1 (by decide)

/-- C9 amended: `is_valid_email` accepts exactly the strings of the shape
the spec describes — `local-part@domain.tld` over word characters, dots
and hyphens, the domain ending in a dot followed by word characters —
optionally followed by one trailing newline, which the `$` anchor of
Python's `re` tolerates; in particular it accepts `a.b-c@sub.domain.com`
and rejects `not-an-email`. -/
theorem email_validator_shape :
    (∀ s : String, is_valid_email s = true ↔ EmailShapeNl s) ∧
    is_valid_email "a.b-c@sub.domain.com" = true ∧
    is_valid_email "not-an-email" = false :=
  ⟨is_valid_email_iff, by decide, by decide⟩

end FilterUsers
